import Mathlib

/-
Verification of the line-parsing and interactive-editing core of the byo-sh
command interpreter.

The embedding below translates the Go source faithfully:

* `tokStep`, `scan`, `finalize`, `tokenize` embed `tokenize` from
  cmd/myshell/main.go (a single left-to-right scan with the state variables
  `inSingleQuotes`, `inDoubleQuotes`, `escapeNext` and an accumulating
  current-token buffer).  Go iterates over bytes; the embedding iterates over
  characters, which coincides for the ASCII inputs the claims concern.
* `extractLoop` / `extractRedirection` embed the redirection-processing loop of
  `main` (cmd/myshell/main.go).  The loop keeps an index `i` into a shrinking
  token slice; the embedding represents it as a zipper `(done, rest)` with
  `i = done.length`, plus an explicit fuel parameter, because the Go loop does
  not terminate on every input: in the missing-filename branch the Go code
  executes `continue` without advancing `i` or shrinking `tokens`, which
  re-enters the same loop iteration forever.  The embedding mirrors that
  branch as a self-loop consuming only fuel, so `= none` for every fuel value
  expresses that the scan never finishes.
* `dispatchEvents` embeds the handle bookkeeping of `main`
  (cmd/myshell/main.go): which redirection files get opened and closed on each
  branch of one dispatcher iteration.  Open failures are abstracted by the two
  Booleans `okOut`, `okErr` (whether `os.Create` / `os.OpenFile` succeeds).
  The command bodies never open or close these handles, so the event list is a
  faithful account of the handle lifecycle.
* `cdBuiltin` embeds the `case "cd"` branch of `main` (cmd/myshell/main.go);
  `os.Chdir` is abstracted by the capability `dirOk` (the operating-system
  contract: on success the working directory becomes the target, on failure
  the process state is untouched and an error is returned).
* `atoi`, `cmdExit` embed `strconv.Atoi` (sign and decimal digits, with the
  int64 range error) and `CMD.Exit` from the line-editor snapshot.
* `lexLe`, `sortStrings`, `removeDuplicates`, `autocompleteFn`,
  `findLongestCommonPrefix`, `editorStep` embed the completion and raw-mode
  editing code of the line-editor snapshot (`readInput`, `autocomplete`,
  `removeDuplicates`, `findBuiltinExecutablesHasPrefix`,
  `findExecutablesHasPrefix`, `findLongestCommonPrefix`).  The PATH scan is
  abstracted by the list `exes` of executable names it yields, in scan order.
  `slices.Sort` sorts ascending in Go's byte-lexicographic string order;
  `sortStrings` is insertion sort under the character-lexicographic order
  `lexLe`, which agrees on ASCII names, and any ascending sort of the same
  list produces the same result.
-/

namespace ByoSh

/-! ## Tokenizer (cmd/myshell/main.go, `tokenize`) -/

structure TokState where
  tokens : List (List Char)
  current : List Char
  inSingleQuotes : Bool
  inDoubleQuotes : Bool
  escapeNext : Bool
deriving Repr, DecidableEq

def initTokState : TokState :=
  { tokens := [], current := [], inSingleQuotes := false,
    inDoubleQuotes := false, escapeNext := false }

/-- The characters a backslash escapes inside double quotes (Go:
dollar, backquote, double quote, backslash, newline). -/
def dqEscapes (c : Char) : Bool :=
  c = '$' || c = '\x60' || c = '"' || c = '\\' || c = '\n'

/-- One iteration of the scanning loop of `tokenize`, branch for branch. -/
def tokStep (st : TokState) (c : Char) : TokState :=
  if st.inSingleQuotes then
    if c = '\x27' then { st with inSingleQuotes := false }
    else { st with current := st.current ++ [c] }
  else if st.escapeNext then
    if st.inDoubleQuotes then
      if dqEscapes c then { st with current := st.current ++ [c], escapeNext := false }
      else { st with current := st.current ++ ['\\', c], escapeNext := false }
    else { st with current := st.current ++ [c], escapeNext := false }
  else if c = '\\' then { st with escapeNext := true }
  else if c = '\x27' then
    if st.inDoubleQuotes then { st with current := st.current ++ [c] }
    else { st with inSingleQuotes := true }
  else if c = '"' then { st with inDoubleQuotes := !st.inDoubleQuotes }
  else if st.inDoubleQuotes = false ∧ c = ' ' then
    if 0 < st.current.length then
      { st with tokens := st.tokens ++ [st.current], current := [] }
    else st
  else { st with current := st.current ++ [c] }

def scan (s : List Char) : TokState := s.foldl tokStep initTokState

/-- The flush after the loop: a non-empty accumulated token becomes the last
token. -/
def finalize (st : TokState) : List (List Char) :=
  if 0 < st.current.length then st.tokens ++ [st.current] else st.tokens

def tokenize (s : String) : List String :=
  (finalize (scan s.data)).map fun l => String.mk l

/-! ## Redirection extraction (cmd/myshell/main.go, the loop in `main`) -/

structure Redir where
  stdoutFileName : String
  stdoutAppend : Bool
  stderrFileName : String
  stderrAppend : Bool
deriving Repr, DecidableEq

def initRedir : Redir :=
  { stdoutFileName := "", stdoutAppend := false,
    stderrFileName := "", stderrAppend := false }

def isStdoutOp (t : String) : Bool := t = ">" || t = "1>" || t = ">>" || t = "1>>"

def isStderrOp (t : String) : Bool := t = "2>" || t = "2>>"

/-- The token-scanning loop of `main`, as a zipper `(done, rest)` with the Go
index `i = done.length`.  The missing-filename branch re-enters the loop with
an unchanged state, exactly as the Go `continue` does, so it only consumes
fuel. -/
def extractLoop : Nat → List String → List String → Redir → Option (List String × Redir)
  | 0, _, _, _ => none
  | fuel + 1, done, rest, r =>
    match rest with
    | [] => some (done, r)
    | t :: rest1 =>
      if isStdoutOp t then
        match rest1 with
        | [] => extractLoop fuel done (t :: rest1) r
        | f :: rest2 =>
          extractLoop fuel done rest2
            { r with stdoutFileName := f, stdoutAppend := (t = ">>" || t = "1>>") }
      else if isStderrOp t then
        match rest1 with
        | [] => extractLoop fuel done (t :: rest1) r
        | f :: rest2 =>
          extractLoop fuel done rest2
            { r with stderrFileName := f, stderrAppend := (t = "2>>") }
      else extractLoop fuel (done ++ [t]) rest1 r

/-- Entry point of the extraction scan.  Every terminating run of the Go loop
performs at most `2 * tokens.length + 1` iterations, so this fuel is enough
whenever the loop terminates at all. -/
def extractRedirection (tokens : List String) : Option (List String × Redir) :=
  extractLoop (2 * tokens.length + 1) [] tokens initRedir

/-! ## Dispatcher handle bookkeeping (cmd/myshell/main.go, `main`) -/

inductive FEvent where
  | openOut | openErr | closeOut | closeErr
deriving Repr, DecidableEq

/-- The file-handle events of one dispatcher iteration, in program order:
open the stdout redirection target (if named and the open succeeds — on
failure the iteration is abandoned with nothing opened), open the stderr
target (on failure the already-opened stdout handle is closed and the
iteration abandoned), run the command (`exit` returns from `main` at once,
skipping the close block), then close whatever was opened. -/
def dispatchEvents (cmdName : String) (r : Redir) (okOut okErr : Bool) : List FEvent :=
  let outWanted := r.stdoutFileName != ""
  let errWanted := r.stderrFileName != ""
  if outWanted && !okOut then []
  else
    let evs1 : List FEvent := if outWanted then [.openOut] else []
    if errWanted && !okErr then evs1 ++ (if outWanted then [.closeOut] else [])
    else
      let evs2 := evs1 ++ (if errWanted then [.openErr] else [])
      if cmdName = "exit" then evs2
      else evs2 ++ (if outWanted then [.closeOut] else [])
             ++ (if errWanted then [.closeErr] else [])

/-! ## The cd builtin (cmd/myshell/main.go, `case "cd"`) -/

structure ShellSt where
  cwd : String
deriving Repr, DecidableEq

/-- The `cd` branch: tilde expands to HOME, then `os.Chdir`; on failure the
path-specific diagnostic is emitted and nothing else happens.  `dirOk`
abstracts whether `os.Chdir` succeeds on a path; by the operating-system
contract a failed `chdir` leaves the working directory untouched. -/
def cdBuiltin (home : String) (dirOk : String → Bool) (args : List String)
    (st : ShellSt) : ShellSt × List String :=
  match args with
  | [] => (st, ["cd: missing argument"])
  | d :: _ =>
    let newWD := if d = "~" then home else d
    if dirOk newWD then ({ cwd := newWD }, [])
    else (st, ["cd: " ++ newWD ++ ": No such file or directory"])

/-! ## The exit builtin (line-editor snapshot, `CMD.Exit`) -/

/-- Decimal digit-string value; `none` when empty or not all digits. -/
def digitsVal (l : List Char) : Option Nat :=
  if l = [] then none
  else if l.all fun c => c.isDigit then
    some (l.foldl (fun a c => 10 * a + (c.toNat - 48)) 0)
  else none

def int64Max : Int := 9223372036854775807

def int64Min : Int := -9223372036854775808

/-- Go `strconv.Atoi`: optional sign, then one or more decimal digits, and
the value must fit in int64 — an out-of-range digit string is a range
error, which, like any other parse failure, yields `none`. -/
def atoi (s : String) : Option Int :=
  match s.data with
  | '+' :: rest =>
    (digitsVal rest).bind fun n =>
      if (n : Int) ≤ int64Max then some (n : Int) else none
  | '-' :: rest =>
    (digitsVal rest).bind fun n =>
      if int64Min ≤ -(n : Int) then some (-(n : Int)) else none
  | l =>
    (digitsVal l).bind fun n =>
      if (n : Int) ≤ int64Max then some (n : Int) else none

/-- `CMD.Exit`: the exit code the process terminates with, and whether a
conversion error was reported first.  No argument: code 0.  Argument parses:
that code.  Argument fails to parse: report the conversion error, code 0. -/
def cmdExit (args : List String) : Int × Bool :=
  match args with
  | [] => (0, false)
  | a :: _ =>
    match atoi a with
    | some n => (n, false)
    | none => (0, true)

/-! ## Completion candidates (line-editor snapshot) -/

def builtinCMDs : List String := ["exit", "echo", "type", "pwd", "cd"]

/-- Go `strings.HasPrefix s p` (is `p` a prefix of `s`). -/
def hasPrefixStr (s p : String) : Bool := p.data.isPrefixOf s.data

/-- Go `strings.TrimPrefix s p`: drop the prefix when present, otherwise
return `s` unchanged. -/
def trimPrefixStr (s p : String) : String :=
  if p.data.isPrefixOf s.data then String.mk (s.data.drop p.data.length) else s

/-- Lexicographic order on character lists by codepoint; on ASCII this is
Go's byte-lexicographic string order. -/
def lexLe : List Char → List Char → Bool
  | [], _ => true
  | _ :: _, [] => false
  | a :: as, b :: bs =>
    if a.toNat < b.toNat then true
    else if b.toNat < a.toNat then false
    else lexLe as bs

def strLeR (a b : String) : Prop := lexLe a.data b.data = true

instance : DecidableRel strLeR := fun a b =>
  inferInstanceAs (Decidable (lexLe a.data b.data = true))

/-- Ascending sort, as Go `slices.Sort` on strings (the sorted result of a
list is the same for every correct ascending sort). -/
def sortStrings (l : List String) : List String := l.insertionSort strLeR

/-- Go `removeDuplicates`: keep the first occurrence of each name. -/
def removeDupAux : List String → List String → List String
  | _, [] => []
  | seen, x :: xs =>
    if x ∈ seen then removeDupAux seen xs else x :: removeDupAux (x :: seen) xs

def removeDuplicates (l : List String) : List String := removeDupAux [] l

/-- Go `autocomplete`: for a non-empty prefix, builtin names with that prefix,
then executable names found under PATH with that prefix (the PATH scan is
abstracted by `exes`), deduplicated and sorted ascending.  The Go pair
`(names, found)` is encoded as the list alone, `found` being non-emptiness. -/
def autocompleteFn (exes : List String) (p : String) : List String :=
  if p = "" then []
  else
    sortStrings (removeDuplicates
      ((builtinCMDs.filter fun v => hasPrefixStr v p)
        ++ (exes.filter fun v => hasPrefixStr v p)))

/-- Go `findLongestCommonPrefix`: sort, take the smallest name, and return it
when it is a prefix of every other name; otherwise return no prefix. -/
def findLongestCommonPrefix (names : List String) : String × Bool :=
  match sortStrings names with
  | [] => ("", false)
  | lcp :: rest =>
    if rest.all fun v => hasPrefixStr v lcp then (lcp, true) else ("", false)

/-- Character-level longest common prefix of two strings. -/
def lcp2 : List Char → List Char → List Char
  | a :: as, b :: bs => if a = b then a :: lcp2 as bs else []
  | _, _ => []

/-- Modelled from the spec: the longest string that is a prefix of every
candidate (section 4.3's longest-common-prefix rule), for comparison with the
source's `findLongestCommonPrefix`. -/
def specLongestCommon (names : List String) : String :=
  match names with
  | [] => ""
  | n :: rest => String.mk (rest.foldl (fun acc v => lcp2 acc v.data) n.data)

/-! ## The raw-mode line editor (line-editor snapshot, `readInput`) -/

structure EditorState where
  input : String
  wasTab : Bool
  names : List String
deriving Repr, DecidableEq

/-- One keystroke, after the byte classification of `readInput`'s switch:
Ctrl-C, Enter (CR or LF), backspace (DEL), Tab, or any other character. -/
inductive Key where
  | ctrlC | enter | backspace | tab | char (c : Char)
deriving Repr, DecidableEq

/-- Outcome of one keystroke: the process exits, the line is committed, or
reading continues with a new editor state; `echo` is what the editor writes
to the display. -/
inductive StepResult where
  | exited (code : Nat)
  | committed (line : String) (echo : String)
  | reading (st : EditorState) (echo : String)
deriving Repr, DecidableEq

def bell : String := "\x07"

/-- One iteration of the `readInput` keystroke loop, branch for branch.
`complete` abstracts `autocomplete` (instantiated with `autocompleteFn exes`
for a given PATH contents `exes`). -/
def editorStep (complete : String → List String) (st : EditorState) (k : Key) :
    StepResult :=
  match k with
  | .ctrlC => .exited 0
  | .enter => .committed st.input "\r\n"
  | .backspace =>
    if 0 < st.input.length then
      .reading { input := String.mk st.input.data.dropLast, wasTab := false,
                 names := [] } "\x08 \x08"
    else
      .reading { input := st.input, wasTab := false, names := [] } ""
  | .char c =>
    .reading { input := st.input ++ c.toString, wasTab := false, names := [] }
      c.toString
  | .tab =>
    if st.names.isEmpty ∧ (complete st.input).isEmpty then
      .reading st bell
    else
      let names := if st.names.isEmpty then complete st.input else st.names
      if names.length = 1 then
        let suffix := trimPrefixStr (names.headD "") st.input
        .reading { input := st.input ++ suffix ++ " ", wasTab := st.wasTab,
                   names := names } (suffix ++ " ")
      else if 1 < names.length then
        -- Go's findLongestCommonPrefix sorts its argument slice in place.
        let snames := sortStrings names
        match findLongestCommonPrefix names with
        | (lcp, true) =>
          let suffix := trimPrefixStr lcp st.input
          .reading { input := st.input ++ suffix, wasTab := false, names := [] }
            suffix
        | (_, false) =>
          if st.wasTab = false then
            .reading { input := st.input, wasTab := true, names := snames } bell
          else
            .reading { input := st.input, wasTab := st.wasTab, names := snames }
              ("\r\n" ++ String.intercalate "  " snames ++ "\r\n" ++ "$ "
                ++ st.input)
      else .reading st ""

/-! ## Helper lemmas -/

theorem lexLe_total (a : List Char) : ∀ b, lexLe a b = true ∨ lexLe b a = true := by
  induction a with
  | nil => intro b; left; rfl
  | cons x xs ih =>
    intro b
    cases b with
    | nil => right; rfl
    | cons y ys =>
      rcases Nat.lt_trichotomy x.toNat y.toNat with h | h | h
      · left; simp [lexLe, h]
      · have h1 : ¬ x.toNat < y.toNat := by omega
        have h2 : ¬ y.toNat < x.toNat := by omega
        rcases ih ys with h3 | h3
        · left; simp [lexLe, h1, h2, h3]
        · right; simp [lexLe, h1, h2, h3]
      · right; simp [lexLe, h]

theorem lexLe_trans (a : List Char) :
    ∀ b c, lexLe a b = true → lexLe b c = true → lexLe a c = true := by
  induction a with
  | nil => intro b c _ _; rfl
  | cons x xs ih =>
    intro b c hab hbc
    cases b with
    | nil => simp [lexLe] at hab
    | cons y ys =>
      cases c with
      | nil => simp [lexLe] at hbc
      | cons z zs =>
        simp only [lexLe] at hab hbc ⊢
        by_cases h1 : x.toNat < y.toNat
        · by_cases h2 : y.toNat < z.toNat
          · simp [show x.toNat < z.toNat by omega]
          · by_cases h2' : z.toNat < y.toNat
            · simp [h2, h2'] at hbc
            · simp [show x.toNat < z.toNat by omega]
        · by_cases h1' : y.toNat < x.toNat
          · simp [h1, h1'] at hab
          · simp only [h1, h1', if_false] at hab
            by_cases h2 : y.toNat < z.toNat
            · simp [show x.toNat < z.toNat by omega]
            · by_cases h2' : z.toNat < y.toNat
              · simp [h2, h2'] at hbc
              · simp only [h2, h2', if_false] at hbc
                have h3 : ¬ x.toNat < z.toNat := by omega
                have h4 : ¬ z.toNat < x.toNat := by omega
                simp [h3, h4]
                exact ih ys zs hab hbc

instance : IsTotal String strLeR := ⟨fun a b => lexLe_total a.data b.data⟩

instance : IsTrans String strLeR :=
  ⟨fun a b c hab hbc => lexLe_trans a.data b.data c.data hab hbc⟩

theorem autocompleteFn_sorted (exes : List String) (p : String) :
    List.Sorted strLeR (autocompleteFn exes p) := by
  unfold autocompleteFn
  split
  · exact List.sorted_nil
  · exact List.sorted_insertionSort strLeR _

theorem autocompleteFn_sortStrings (exes : List String) (p : String) :
    sortStrings (autocompleteFn exes p) = autocompleteFn exes p :=
  List.Sorted.insertionSort_eq (autocompleteFn_sorted exes p)

theorem mem_removeDupAux {x : String} :
    ∀ (seen l : List String), x ∈ removeDupAux seen l → x ∈ l := by
  intro seen l
  induction l generalizing seen with
  | nil => intro h; cases h
  | cons y ys ih =>
    intro h
    unfold removeDupAux at h
    by_cases hy : y ∈ seen
    · rw [if_pos hy] at h
      exact List.mem_cons_of_mem _ (ih _ h)
    · rw [if_neg hy] at h
      rcases List.mem_cons.mp h with h | h
      · exact h ▸ List.mem_cons_self _ _
      · exact List.mem_cons_of_mem _ (ih _ h)

theorem mem_autocompleteFn {exes : List String} {p x : String}
    (hx : x ∈ autocompleteFn exes p) : hasPrefixStr x p = true := by
  unfold autocompleteFn at hx
  by_cases hp : p = ""
  · rw [if_pos hp] at hx; cases hx
  · rw [if_neg hp] at hx
    have hx2 := ((List.perm_insertionSort strLeR _).mem_iff).mp hx
    have hx3 := mem_removeDupAux _ _ hx2
    rcases List.mem_append.mp hx3 with h | h
    · exact (List.mem_filter.mp h).2
    · exact (List.mem_filter.mp h).2

theorem append_trim_of_prefix {c p : String} (hp : hasPrefixStr c p = true) :
    p ++ trimPrefixStr c p = c := by
  unfold hasPrefixStr at hp
  unfold trimPrefixStr
  rw [if_pos hp]
  obtain ⟨t, ht⟩ := List.isPrefixOf_iff_prefix.mp hp
  obtain ⟨pd⟩ := p
  obtain ⟨cd⟩ := c
  subst ht
  show String.mk (pd ++ (pd ++ t).drop pd.length) = String.mk (pd ++ t)
  rw [List.drop_left]

/-! ## Claim theorems -/

/-- C1: the claim says that on a token sequence ending in a redirection
operator with no filename, the extraction scan terminates with a
MissingFilename error and the line is abandoned.  On the code this is false
in a stronger sense: the missing-filename branch executes `continue`, which
re-enters the inner token loop with `i` and `tokens` unchanged, so the scan
never terminates at all (it reprints the diagnostic forever).  This theorem
evaluates the embedded loop at the failing input `["ls", ">"]`: for every
fuel bound the scan has not finished, i.e. it diverges. -/
theorem extract_missing_filename_never_terminates :
    ∀ (fuel : Nat) (r : Redir), extractLoop fuel [] ["ls", ">"] r = none := by
  have stuck : ∀ (fuel : Nat) (done : List String) (r : Redir),
      extractLoop fuel done [">"] r = none := by
    intro fuel
    induction fuel with
    | zero => intro done r; rfl
    | succ n ih =>
      intro done r
      show extractLoop n done [">"] r = none
      exact ih done r
  intro fuel r
  match fuel with
  | 0 => rfl
  | n + 1 =>
    show extractLoop n ([] ++ ["ls"]) [">"] r = none
    exact stuck n ([] ++ ["ls"]) r

/-- C2 counterexample: with a stdout redirection named and the command being
the exit builtin, the dispatcher opens the handle and returns without ever
closing it (the `return` in the `exit` case precedes the close block), so
the claim that every opened handle is closed exactly once on every exit
path, including the exit builtin's, is false. -/
theorem dispatch_exit_leaves_handle_open :
    (dispatchEvents "exit"
        { stdoutFileName := "f", stdoutAppend := false,
          stderrFileName := "", stderrAppend := false } true true)
      = [.openOut] ∧
    (dispatchEvents "exit"
        { stdoutFileName := "f", stdoutAppend := false,
          stderrFileName := "", stderrAppend := false } true true).count .closeOut
      = 0 := by decide

/-- C2 (amended): for every command other than the exit builtin, each file
handle opened for a redirection is closed exactly once before the dispatcher
returns, and at most one handle is opened per stream — on success, handler
error, stderr-open failure and the command-not-found branch alike. -/
theorem dispatch_closes_handles_once (cmdName : String) (r : Redir)
    (okOut okErr : Bool) (h : cmdName ≠ "exit") :
    ((dispatchEvents cmdName r okOut okErr).count .closeOut
        = (dispatchEvents cmdName r okOut okErr).count .openOut) ∧
    ((dispatchEvents cmdName r okOut okErr).count .closeErr
        = (dispatchEvents cmdName r okOut okErr).count .openErr) ∧
    (dispatchEvents cmdName r okOut okErr).count .openOut ≤ 1 ∧
    (dispatchEvents cmdName r okOut okErr).count .openErr ≤ 1 := by
  unfold dispatchEvents
  cases hw : (r.stdoutFileName != "") <;> cases he : (r.stderrFileName != "") <;>
    cases okOut <;> cases okErr <;> simp [h]

/-- C2 witness: a run of the amended theorem at a concrete non-exit command
with both streams redirected and both opens succeeding. -/
theorem dispatch_closes_handles_once_witness :
    ("echo" ≠ "exit") ∧
    (((dispatchEvents "echo"
          { stdoutFileName := "f", stdoutAppend := false,
            stderrFileName := "g", stderrAppend := false } true true).count .closeOut
        = (dispatchEvents "echo"
          { stdoutFileName := "f", stdoutAppend := false,
            stderrFileName := "g", stderrAppend := false } true true).count .openOut) ∧
      ((dispatchEvents "echo"
          { stdoutFileName := "f", stdoutAppend := false,
            stderrFileName := "g", stderrAppend := false } true true).count .closeErr
        = (dispatchEvents "echo"
          { stdoutFileName := "f", stdoutAppend := false,
            stderrFileName := "g", stderrAppend := false } true true).count .openErr) ∧
      (dispatchEvents "echo"
          { stdoutFileName := "f", stdoutAppend := false,
            stderrFileName := "g", stderrAppend := false } true true).count .openOut ≤ 1 ∧
      (dispatchEvents "echo"
          { stdoutFileName := "f", stdoutAppend := false,
            stderrFileName := "g", stderrAppend := false } true true).count .openErr ≤ 1) :=
  ⟨by decide,
   dispatch_closes_handles_once "echo"
     { stdoutFileName := "f", stdoutAppend := false,
       stderrFileName := "g", stderrAppend := false } true true (by decide)⟩

/-- C4: the tokenizer's asymmetric escape rule, stated per scan step (the
scan is a left-to-right fold of `tokStep`).  Outside single quotes, with an
escape pending: inside double quotes the next character is appended alone
exactly when it is one of dollar, backquote, double quote, backslash,
newline, and otherwise the backslash is preserved alongside it; outside all
quotes the next character is appended unconditionally.  With no escape
pending, a backslash only sets the escape flag (it is dropped). -/
theorem tokenize_escape_asymmetry (st : TokState) (c : Char)
    (hs : st.inSingleQuotes = false) :
    (st.escapeNext = true → st.inDoubleQuotes = true →
      tokStep st c =
        { st with current := st.current ++ (if dqEscapes c then [c] else ['\\', c]),
                  escapeNext := false }) ∧
    (st.escapeNext = true → st.inDoubleQuotes = false →
      tokStep st c = { st with current := st.current ++ [c], escapeNext := false }) ∧
    (st.escapeNext = false →
      tokStep st '\\' = { st with escapeNext := true }) := by
  refine ⟨fun he hd => ?_, fun he hd => ?_, fun he => ?_⟩
  · unfold tokStep
    rw [if_neg (by rw [hs]; exact Bool.false_ne_true), if_pos he, if_pos hd]
    split <;> rfl
  · unfold tokStep
    rw [if_neg (by rw [hs]; exact Bool.false_ne_true), if_pos he,
        if_neg (by rw [hd]; exact Bool.false_ne_true)]
  · unfold tokStep
    rw [if_neg (by rw [hs]; exact Bool.false_ne_true),
        if_neg (by rw [he]; exact Bool.false_ne_true), if_pos rfl]

/-- C4 witness: the three escape behaviours at concrete states — inside
double quotes a pending escape before `x` keeps the backslash, before `$` it
drops it; outside quotes the escape before `x` drops the backslash; and a
bare backslash sets the pending-escape flag. -/
theorem tokenize_escape_asymmetry_witness :
    tokStep ⟨[], [], false, true, true⟩ 'x' = ⟨[], ['\\', 'x'], false, true, false⟩ ∧
    tokStep ⟨[], [], false, true, true⟩ '$' = ⟨[], ['$'], false, true, false⟩ ∧
    tokStep ⟨[], [], false, false, true⟩ 'x' = ⟨[], ['x'], false, false, false⟩ ∧
    tokStep ⟨[], [], false, false, false⟩ '\\' = ⟨[], [], false, false, true⟩ :=
  ⟨((tokenize_escape_asymmetry ⟨[], [], false, true, true⟩ 'x' rfl).1 rfl rfl).trans
      (by decide),
   ((tokenize_escape_asymmetry ⟨[], [], false, true, true⟩ '$' rfl).1 rfl rfl).trans
      (by decide),
   ((tokenize_escape_asymmetry ⟨[], [], false, false, true⟩ 'x' rfl).2.1 rfl rfl).trans
      (by decide),
   ((tokenize_escape_asymmetry ⟨[], [], false, false, false⟩ '\\' rfl).2.2 rfl).trans
      (by decide)⟩

/-- C5: the exit builtin's exit codes, from `CMD.Exit`: no argument gives
code 0 without a conversion error; a first argument `strconv.Atoi` accepts
gives that code without error; a first argument it rejects reports the
conversion error and gives code 0. -/
theorem exit_builtin_codes :
    cmdExit [] = (0, false) ∧
    (∀ (a : String) (rest : List String) (n : Int),
      atoi a = some n → cmdExit (a :: rest) = (n, false)) ∧
    (∀ (a : String) (rest : List String),
      atoi a = none → cmdExit (a :: rest) = (0, true)) := by
  refine ⟨rfl, fun a rest n h => ?_, fun a rest h => ?_⟩
  · simp [cmdExit, h]
  · simp [cmdExit, h]

/-- C5 witness: `exit 42` terminates with code 42; `exit wat` reports a
conversion error and terminates with code 0; and an argument of twenty
nines, a digit string beyond the int64 range, is a range error for
`strconv.Atoi`, so it too reports the conversion error and gives code 0. -/
theorem exit_builtin_codes_witness :
    (atoi "42" = some 42 ∧ cmdExit ["42"] = (42, false)) ∧
    (atoi "wat" = none ∧ cmdExit ["wat"] = (0, true)) ∧
    (atoi "99999999999999999999" = none ∧
      cmdExit ["99999999999999999999"] = (0, true)) :=
  ⟨⟨by decide, exit_builtin_codes.2.1 "42" [] 42 (by decide)⟩,
   ⟨by decide, exit_builtin_codes.2.2 "wat" [] (by decide)⟩,
   ⟨by decide, exit_builtin_codes.2.2 "99999999999999999999" [] (by decide)⟩⟩

/-- C8: whenever the cd target (after tilde expansion to HOME) cannot be
changed into, the shell emits exactly the path-specific diagnostic and the
state is returned unchanged: no cd error alters the working directory. -/
theorem cd_failure_preserves_cwd (home : String) (dirOk : String → Bool)
    (d : String) (rest : List String) (st : ShellSt)
    (h : dirOk (if d = "~" then home else d) = false) :
    cdBuiltin home dirOk (d :: rest) st =
      (st, ["cd: " ++ (if d = "~" then home else d)
              ++ ": No such file or directory"]) := by
  simp only [cdBuiltin]
  rw [if_neg (by rw [h]; exact Bool.false_ne_true)]

/-- C8 witness: cd to a path no directory matches leaves the working
directory `/w` unchanged and reports the path-specific message. -/
theorem cd_failure_preserves_cwd_witness :
    ((fun _ : String => false) (if "nope" = "~" then "/home/u" else "nope") = false) ∧
    cdBuiltin "/home/u" (fun _ => false) ["nope"] { cwd := "/w" } =
      ({ cwd := "/w" }, ["cd: nope: No such file or directory"]) :=
  ⟨rfl,
   (cd_failure_preserves_cwd "/home/u" (fun _ => false) "nope" [] { cwd := "/w" }
      rfl).trans (by decide)⟩

/-- C9: a line ending in a single unescaped backslash outside single quotes
tokenizes exactly like the same line without it: the final backslash only
sets the pending-escape flag, which the end-of-input flush ignores. -/
theorem trailing_backslash_dropped (s : String)
    (h1 : (scan s.data).inSingleQuotes = false)
    (h2 : (scan s.data).escapeNext = false) :
    tokenize (s.push '\\') = tokenize s := by
  unfold tokenize
  rw [String.data_push]
  have hscan : scan (s.data ++ ['\\']) = tokStep (scan s.data) '\\' := by
    unfold scan
    rw [List.foldl_append]
    rfl
  rw [hscan, (tokenize_escape_asymmetry (scan s.data) '\\' h1).2.2 h2]
  rfl

/-- C9 witness: `echo a\` tokenizes exactly like `echo a`. -/
theorem trailing_backslash_dropped_witness :
    ((scan "echo a".data).inSingleQuotes = false ∧
      (scan "echo a".data).escapeNext = false) ∧
    tokenize ("echo a".push '\\') = tokenize "echo a" :=
  ⟨⟨by decide, by decide⟩,
   trailing_backslash_dropped "echo a" (by decide) (by decide)⟩

/-- C10: a quoted or escaped `>` tokenizes to the bare token `>` (quotes and
escapes leave no mark on the token), so extraction consumes it as a stdout
redirection exactly like an unquoted one: `ls '>' x` and `ls \> x` both
become `ls` with stdout redirected to `x`. -/
theorem quoted_operator_redirects :
    tokenize "ls \x27>\x27 x" = ["ls", ">", "x"] ∧
    tokenize "ls \\> x" = ["ls", ">", "x"] ∧
    tokenize "ls \x27>\x27 x" = tokenize "ls > x" ∧
    extractRedirection (tokenize "ls \x27>\x27 x")
      = some (["ls"],
          { stdoutFileName := "x", stdoutAppend := false,
            stderrFileName := "", stderrAppend := false }) := by decide

/-- C3: the claim says the completion logic computes the longest string that
is a prefix of every candidate and extends the buffer by the extra common
characters.  For the candidates `abcd`, `abce` (a PATH offering both as
executables) that longest common prefix is `abc`, strictly longer than the
typed prefix `ab`; the source's `findLongestCommonPrefix` instead returns no
prefix (it only succeeds when the smallest candidate is a prefix of all
others), so the Tab press rings the bell and fills in nothing. -/
theorem lcp_not_computed :
    findLongestCommonPrefix ["abcd", "abce"] = ("", false) ∧
    specLongestCommon ["abcd", "abce"] = "abc" ∧
    editorStep (autocompleteFn ["abcd", "abce"])
        { input := "ab", wasTab := false, names := [] } .tab
      = .reading { input := "ab", wasTab := true, names := ["abcd", "abce"] }
          bell := by decide

/-- C6 counterexample: with buffer `ech` and the sole candidate `echo`, the
Tab press updates the buffer to `echo ` but echoes only the two characters
`o ` at the cursor — no carriage return and no prompt character are emitted,
so the claim's "the line is redrawn from the prompt" is false (the source's
own redraw path, the ambiguous listing, does emit `\r` and the prompt). -/
theorem single_candidate_no_prompt_redraw :
    editorStep (autocompleteFn []) { input := "ech", wasTab := false, names := [] } .tab
      = .reading { input := "echo ", wasTab := false, names := ["echo"] } "o " ∧
    ("o ".data.contains '\r') = false ∧
    ("o ".data.contains '$') = false := by decide

/-- C6 (amended): when a Tab press in the Reading state finds exactly one
candidate for the current buffer as prefix, the buffer is replaced by that
candidate plus a single trailing space (the space is in the buffer), and the
editor echoes only the completed suffix and the space at the cursor — it
does not redraw the line from the prompt. -/
theorem single_candidate_completion (exes : List String) (input c : String) (w : Bool)
    (hf : autocompleteFn exes input = [c]) :
    editorStep (autocompleteFn exes) { input := input, wasTab := w, names := [] } .tab =
      .reading { input := c ++ " ", wasTab := w, names := [c] }
        (trimPrefixStr c input ++ " ") := by
  have hp : hasPrefixStr c input = true :=
    mem_autocompleteFn (hf ▸ List.mem_singleton_self c)
  have happ : input ++ trimPrefixStr c input = c := append_trim_of_prefix hp
  simp only [editorStep, hf]
  simp only [List.isEmpty_nil, List.isEmpty_cons, and_false, if_false, if_true,
    List.length_singleton, if_pos, List.headD_cons]
  simp only [Bool.false_eq_true, and_false, if_false, happ]

/-- C6 witness: prefix `ech` with the builtins alone matches only `echo`;
one Tab completes the buffer to `echo ` and echoes `o `. -/
theorem single_candidate_completion_witness :
    autocompleteFn [] "ech" = ["echo"] ∧
    editorStep (autocompleteFn []) { input := "ech", wasTab := false, names := [] } .tab
      = .reading { input := "echo" ++ " ", wasTab := false, names := ["echo"] }
          (trimPrefixStr "echo" "ech" ++ " ") :=
  ⟨by decide, single_candidate_completion [] "ech" "echo" false (by decide)⟩

/-- C7 counterexample: candidates `echo` and `echos` (a PATH offering an
executable `echos`) form an ambiguous set already at its common prefix
`echo`; with buffer `echo` a first Tab press emits nothing at all — no bell
— and leaves the consecutive-Tab state unset, so a second Tab behaves
identically and the candidate listing never appears.  The claimed
bell-then-list behaviour is false for such sets: it only occurs when the
smallest candidate is not a prefix of all the others. -/
theorem ambiguous_at_common_prefix_silent :
    editorStep (autocompleteFn ["echos"])
        { input := "echo", wasTab := false, names := [] } .tab
      = .reading { input := "echo", wasTab := false, names := [] } "" ∧
    ("" : String) ≠ bell := by decide

/-- C7 (amended): for an ambiguous CandidateSet (size at least 2) on which
`findLongestCommonPrefix` reports no prefix (its no-further-auto-fill test:
the lexicographically smallest candidate is not a prefix of every other),
the first Tab press rings the bell only; a second consecutive Tab press
prints all candidates separated by two spaces, sorted ascending, on a fresh
line and then redraws the prompt and the buffer; and any non-Tab keystroke
(a character or backspace) resets the consecutive-Tab state. -/
theorem double_tab_listing (exes : List String) (input : String) (names : List String)
    (hf : autocompleteFn exes input = names)
    (hlen : 2 ≤ names.length)
    (hnf : (findLongestCommonPrefix names).2 = false) :
    editorStep (autocompleteFn exes) { input := input, wasTab := false, names := [] } .tab
      = .reading { input := input, wasTab := true, names := names } bell ∧
    editorStep (autocompleteFn exes) { input := input, wasTab := true, names := names } .tab
      = .reading { input := input, wasTab := true, names := names }
          ("\r\n" ++ String.intercalate "  " names ++ "\r\n" ++ "$ " ++ input) ∧
    List.Sorted strLeR names ∧
    (∀ c : Char,
      editorStep (autocompleteFn exes) { input := input, wasTab := true, names := names }
          (.char c)
        = .reading { input := input ++ c.toString, wasTab := false, names := [] }
            c.toString) ∧
    editorStep (autocompleteFn exes) { input := input, wasTab := true, names := names }
        .backspace
      = .reading { input := String.mk input.data.dropLast, wasTab := false, names := [] }
          "\x08 \x08" := by
  have hs : sortStrings names = names := by
    rw [← hf]; exact autocompleteFn_sortStrings exes input
  have hsorted : List.Sorted strLeR names := by
    rw [← hf]; exact autocompleteFn_sorted exes input
  have hie : names.isEmpty = false := by
    cases names with
    | nil => exact absurd hlen (by decide)
    | cons a l => rfl
  have hlen1 : ¬ (names.length = 1) := by omega
  have hlt : 1 < names.length := by omega
  have hinput : input ≠ "" := by
    intro h
    rw [h] at hf
    rw [show autocompleteFn exes "" = [] from rfl] at hf
    rw [← hf] at hlen
    exact absurd hlen (by decide)
  have hpos : 0 < input.length := by
    cases input with
    | mk d =>
      cases d with
      | nil => exact absurd rfl hinput
      | cons a l => simp [String.length]
  rcases hq : findLongestCommonPrefix names with ⟨lcpv, bv⟩
  have hbv : bv = false := by rw [hq] at hnf; exact hnf
  subst hbv
  refine ⟨?_, ?_, hsorted, fun c => rfl, ?_⟩
  · simp [editorStep, hf, hie, hlen1, hlt, hs, hq]
  · simp [editorStep, hf, hie, hlen1, hlt, hs, hq]
  · simp only [editorStep]
    rw [if_pos hpos]

/-- C7 witness: the spec's own scenario — builtins alone, prefix `e`,
candidates `echo` and `exit` already at their common prefix: the first Tab
rings the bell, the second lists `echo  exit` and redraws, and a typed
character resets the consecutive-Tab state. -/
theorem double_tab_listing_witness :
    (autocompleteFn [] "e" = ["echo", "exit"] ∧
      (findLongestCommonPrefix ["echo", "exit"]).2 = false) ∧
    editorStep (autocompleteFn []) { input := "e", wasTab := false, names := [] } .tab
      = .reading { input := "e", wasTab := true, names := ["echo", "exit"] } bell ∧
    editorStep (autocompleteFn [])
        { input := "e", wasTab := true, names := ["echo", "exit"] } .tab
      = .reading { input := "e", wasTab := true, names := ["echo", "exit"] }
          ("\r\n" ++ String.intercalate "  " ["echo", "exit"] ++ "\r\n" ++ "$ " ++ "e") ∧
    editorStep (autocompleteFn [])
        { input := "e", wasTab := true, names := ["echo", "exit"] } (.char 'x')
      = .reading { input := "e" ++ Char.toString 'x', wasTab := false, names := [] }
          (Char.toString 'x') :=
  have h := double_tab_listing [] "e" ["echo", "exit"] (by decide) (by decide) (by decide)
  ⟨⟨by decide, by decide⟩, h.1, h.2.1, h.2.2.2.1 'x'⟩

end ByoSh
